import Mathlib

/-!
# Verification of the RegistryClients leader-election core and manager/worker sample

This file shallowly embeds the Python sources `leader_election.py` (class `Role`)
and `samples/manager_workers.py` (classes `ProblemState`, `Manager`, `Worker`)
and proves properties of the embedded definitions.

Modelling conventions:
* Machine integers and timestamps: Python ints are `Int`; `time.time()` values
  (float seconds) are modelled as `ℚ`, since only ordered-field arithmetic on
  them occurs in the code.
* Python `dict`s are insertion-ordered association lists.  `d[k] = v` updates
  the first entry with key `k` in place (preserving its position) and appends
  a new entry otherwise, exactly like a Python dict; `del d[k]` removes the
  entry with key `k`.
* The sample keys its `pending` dict by the string `f"{lower},{higher}"` and
  sends the same string on the wire.  `str` on Python ints is injective and
  produces no comma, so the encoding string ↔ pair of ints is a bijection on
  the values that actually occur; we model the key directly as the pair
  `Int × Int`.
* Fallible Python code is embedded in `Except PyExn`; a `try/except` block
  becomes a `match` on the `Except` value that catches exactly the exception
  classes named by the handler.
* Code holding `threading.RLock` is modelled as an atomic step: the lock
  serializes `Role.take`, `Role.release` and the body of the maintenance
  loop against each other.
-/

/-- Python exception classes that the embedded code can raise. -/
inductive PyExn where
  /-- `AttributeError`: reading an attribute the object does not have. -/
  | attributeError : PyExn
  /-- `UnboundLocalError`: using a local variable before assignment. -/
  | unboundLocalError : PyExn
  /-- `registry_client.RegistryError`: failure reported by the store client. -/
  | registryError : PyExn
  /-- `TypeError`: an operation applied to an operand of the wrong type. -/
  | typeError : PyExn
  /-- `AssertionError`: a failed `assert` statement. -/
  | assertionError : PyExn
  /-- `socket.error` with the given errno. -/
  | socketError : Nat → PyExn
  deriving DecidableEq, Repr

/-! ## Python dictionaries as insertion-ordered association lists -/

/-- `d[k] = v`: replace the value of the first entry with key `k`, keeping its
position; append `(k, v)` if `k` is not present. -/
def dictInsert {κ ν : Type} [DecidableEq κ] (k : κ) (v : ν) :
    List (κ × ν) → List (κ × ν)
  | [] => [(k, v)]
  | e :: rest => if e.1 = k then (k, v) :: rest else e :: dictInsert k v rest

/-- `del d[k]`: drop the entry with key `k` (all of them; a Python dict has at
most one). -/
def dictDel {κ ν : Type} [DecidableEq κ] (k : κ) :
    List (κ × ν) → List (κ × ν)
  | [] => []
  | e :: rest => if e.1 = k then dictDel k rest else e :: dictDel k rest

/-- `d.get(k)` / `d[k]` lookup: the value of the first entry with key `k`. -/
def dictLookup {κ ν : Type} [DecidableEq κ] (k : κ) :
    List (κ × ν) → Option ν
  | [] => none
  | e :: rest => if e.1 = k then some e.2 else dictLookup k rest

/-- `d.keys()`. -/
def dictKeys {κ ν : Type} (d : List (κ × ν)) : List κ :=
  d.map Prod.fst

/-- `k in d`. -/
def dictMem {κ ν : Type} [DecidableEq κ] (k : κ) (d : List (κ × ν)) : Bool :=
  (dictLookup k d).isSome

@[simp]
theorem dictLookup_nil {κ ν : Type} [DecidableEq κ] (k : κ) :
    dictLookup (ν := ν) k [] = none := rfl

@[simp]
theorem dictLookup_cons {κ ν : Type} [DecidableEq κ] (k : κ) (e : κ × ν)
    (d : List (κ × ν)) :
    dictLookup k (e :: d) = if e.1 = k then some e.2 else dictLookup k d := rfl

/-- Deleting a key makes it unfindable. -/
theorem dictLookup_dictDel_self {κ ν : Type} [DecidableEq κ] (k : κ)
    (d : List (κ × ν)) : dictLookup k (dictDel k d) = none := by
  induction d with
  | nil => rfl
  | cons e rest ih =>
      by_cases h : e.1 = k
      · simpa [dictDel, h] using ih
      · simpa [dictDel, h, dictLookup_cons] using ih

/-- Deleting one key does not affect lookups of another. -/
theorem dictLookup_dictDel_ne {κ ν : Type} [DecidableEq κ] {k k' : κ}
    (h : k' ≠ k) (d : List (κ × ν)) :
    dictLookup k' (dictDel k d) = dictLookup k' d := by
  induction d with
  | nil => rfl
  | cons e rest ih =>
      by_cases he : e.1 = k
      · have hne : ¬(e.1 = k') := fun hc => h (hc.symm.trans he)
        simp [dictDel, he, hne, dictLookup_cons, ih, h, Ne.symm h]
      · by_cases he' : e.1 = k'
        · simp [dictDel, he, he', dictLookup_cons, h, Ne.symm h]
        · simp [dictDel, he, he', dictLookup_cons, ih]

/-- The inserted entry is present after insertion. -/
theorem mem_dictInsert_self {κ ν : Type} [DecidableEq κ] (k : κ) (v : ν)
    (d : List (κ × ν)) : (k, v) ∈ dictInsert k v d := by
  induction d with
  | nil => simp [dictInsert]
  | cons e rest ih =>
      by_cases h : e.1 = k
      · simp [dictInsert, h]
      · simp [dictInsert, h, ih]

/-- Entries with a different key survive insertion. -/
theorem mem_dictInsert_of_ne {κ ν : Type} [DecidableEq κ] {k k' : κ}
    (v : ν) {v' : ν} (h : k' ≠ k) (d : List (κ × ν)) :
    (k', v') ∈ d → (k', v') ∈ dictInsert k v d := by
  induction d with
  | nil => intro hm; cases hm
  | cons e rest ih =>
      intro hm
      simp only [dictInsert]
      by_cases he : e.1 = k
      · rw [if_pos he]
        rcases List.mem_cons.mp hm with hm | hm
        · rw [← hm] at he; exact absurd he h
        · exact List.mem_cons_of_mem _ hm
      · rw [if_neg he]
        rcases List.mem_cons.mp hm with hm | hm
        · exact hm ▸ List.mem_cons_self _ _
        · exact List.mem_cons_of_mem _ (ih hm)

/-- Every entry of `dictInsert k v d` is the new entry or an old entry of `d`. -/
theorem mem_of_mem_dictInsert {κ ν : Type} [DecidableEq κ] {k : κ} {v : ν}
    {e : κ × ν} (d : List (κ × ν)) :
    e ∈ dictInsert k v d → e = (k, v) ∨ e ∈ d := by
  induction d with
  | nil => intro h; simpa [dictInsert] using h
  | cons e' rest ih =>
      intro h
      by_cases he : e'.1 = k
      · rcases List.mem_cons.mp (by simpa [dictInsert, he] using h) with h | h
        · exact Or.inl h
        · exact Or.inr (List.mem_cons_of_mem _ h)
      · rcases List.mem_cons.mp (by simpa [dictInsert, he] using h) with h | h
        · subst h; exact Or.inr (List.mem_cons_self _ _)
        · rcases ih h with h | h
          · exact Or.inl h
          · exact Or.inr (List.mem_cons_of_mem _ h)

/-- Insertion preserves distinctness of keys. -/
theorem dictInsert_keys_nodup {κ ν : Type} [DecidableEq κ] (k : κ) (v : ν)
    (d : List (κ × ν)) (h : (dictKeys d).Nodup) :
    (dictKeys (dictInsert k v d)).Nodup := by
  induction d with
  | nil => simp [dictInsert, dictKeys]
  | cons e rest ih =>
      simp only [dictKeys, List.map_cons, List.nodup_cons] at h
      by_cases he : e.1 = k
      · subst he
        simpa [dictInsert, dictKeys, List.nodup_cons] using h
      · have hrest := ih h.2
        simp only [dictInsert, if_neg he, dictKeys, List.map_cons,
          List.nodup_cons]
        refine ⟨fun hc => ?_, hrest⟩
        rcases List.mem_map.mp hc with ⟨a, ha, hka⟩
        rcases mem_of_mem_dictInsert rest ha with h' | h'
        · subst h'; exact he hka.symm
        · exact h.1 (by simpa [dictKeys, hka] using List.mem_map_of_mem Prod.fst h')

/-- With distinct keys, an entry's key determines its value. -/
theorem dictKeys_nodup_value_eq {κ ν : Type} [DecidableEq κ]
    {d : List (κ × ν)} (h : (dictKeys d).Nodup) {k : κ} {v v' : ν}
    (h1 : (k, v) ∈ d) (h2 : (k, v') ∈ d) : v = v' := by
  induction d with
  | nil => cases h1
  | cons e rest ih =>
      simp only [dictKeys, List.map_cons, List.nodup_cons] at h
      rcases List.mem_cons.mp h1 with h1 | h1 <;>
        rcases List.mem_cons.mp h2 with h2 | h2
      · exact congrArg Prod.snd (h1.trans h2.symm)
      · exfalso
        exact h.1 (by simpa [dictKeys, ← h1] using List.mem_map_of_mem Prod.fst h2)
      · exfalso
        exact h.1 (by simpa [dictKeys, ← h2] using List.mem_map_of_mem Prod.fst h1)
      · exact ih h.2 h1 h2

/-! ## `leader_election.Role`

The Python class `Role` (leader_election.py) wraps one (role path, holder
name) pair and owns at most one maintenance thread.  `__init__` assigns
`name`, `client`, `role_path`, `max_players`, `playtime_secs`,
`expiration_time_msecs`, `_lock`, `_to_maintain_role` and
`_maintenance_thread` — and nothing else; in particular no attribute named
`instance_name` is ever assigned anywhere in the module, although
`_maintain_role` reads `self.instance_name`.

The store client is external; a call to it is recorded as a `StoreCall` and
its outcome is an input (`StoreResp`) of the embedded operation.  Threads:
`liveTasks` lists the identifiers of maintenance threads that have been
started and have not yet returned; the lock-guarded body of the maintenance
loop runs as one atomic step (`Ev.taskStep`), serialized against `take` and
`release` exactly as the per-handle `RLock` serializes them. -/

/-- Outcome of a `client.take_role` request. -/
inductive StoreResp where
  /-- Success, carrying `resp.client_expiration_time_in_msecs`. -/
  | ok (client_expiration_time_in_msecs : Int) : StoreResp
  /-- The request failed with `RegistryError`. -/
  | err : StoreResp
  deriving DecidableEq, Repr

/-- A network request issued to the Registry Service. -/
inductive StoreCall where
  /-- `client.take_role(role_path, holder, ...)` — acquire or renew. -/
  | takeRole (role_path holder : String) : StoreCall
  /-- `client.release_role(role_path, holder)`. -/
  | releaseRole (role_path holder : String) : StoreCall
  deriving DecidableEq, Repr

/-- The attributes of a `Role` object (all assignments in `__init__`,
lines 58–67; the `client` and `_lock` objects carry no modelled state). -/
structure RoleState where
  name : String
  role_path : String
  max_players : Nat
  playtime_secs : Nat
  expiration_time_msecs : Int
  to_maintain_role : Bool
  maintenance_thread : Option Nat
  deriving DecidableEq, Repr

/-- Reading `self.instance_name` (leader_election.py line 174).  No method of
`Role` ever assigns an attribute of that name, so the read raises
`AttributeError` on every instance. -/
def RoleState.instance_name? (_ : RoleState) : Except PyExn String :=
  .error .attributeError

/-- The whole `Role` handle together with its maintenance threads:
`liveTasks` are the started-and-not-yet-returned thread identifiers,
`nextTid` is a supply of fresh identifiers. -/
structure RoleSys where
  role : RoleState
  liveTasks : List Nat
  nextTid : Nat
  deriving DecidableEq, Repr

/-- The state right after `Role.__init__`. -/
def initRole (name role_path : String) (max_players playtime_secs : Nat) :
    RoleSys :=
  { role :=
      { name := name
        role_path := role_path
        max_players := max_players
        playtime_secs := playtime_secs
        expiration_time_msecs := 0
        to_maintain_role := false
        maintenance_thread := none }
    liveTasks := []
    nextTid := 0 }

/-- `Role.take` (lines 69–92): issue `take_role`; on success record the new
expiration if newer, set the maintain flag, and start a maintenance thread
if `_maintenance_thread is None`; on `RegistryError` return `False` with no
state change. -/
def Role.take (resp : StoreResp) (s : RoleSys) :
    RoleSys × Bool × List StoreCall :=
  let call := StoreCall.takeRole s.role.role_path s.role.name
  match resp with
  | .err => (s, false, [call])
  | .ok e =>
      let r1 :=
        { s.role with
          expiration_time_msecs :=
            if e > s.role.expiration_time_msecs then e
            else s.role.expiration_time_msecs
          to_maintain_role := true }
      match r1.maintenance_thread with
      | some _ => ({ s with role := r1 }, true, [call])
      | none =>
          ({ role := { r1 with maintenance_thread := some s.nextTid }
             liveTasks := s.liveTasks ++ [s.nextTid]
             nextTid := s.nextTid + 1 }, true, [call])

/-- `Role.release` (lines 94–113): clear the maintain flag, null the thread
handle without joining the thread, then call `release_role`.  On success the
method returns `True`; if the store call raises, the handler executes
`num_attempts -= 1` — but no local `num_attempts` was ever assigned, so the
handler itself raises `UnboundLocalError`, which propagates to the caller. -/
def Role.release (storeFails : Bool) (s : RoleSys) :
    RoleSys × Except PyExn Bool × List StoreCall :=
  let r1 := { s.role with to_maintain_role := false, maintenance_thread := none }
  let call := StoreCall.releaseRole s.role.role_path s.role.name
  if storeFails then
    ({ s with role := r1 }, .error .unboundLocalError, [call])
  else
    ({ s with role := r1 }, .ok true, [call])

/-- `Role.active_players` (lines 131–143): `None` on `RegistryError`,
otherwise the names whose remaining playtime is positive.  The input is the
store's `players_remaining_milliseconds` read, or `none` for a failure. -/
def Role.active_players (resp : Option (List (String × Int))) :
    Option (List String) :=
  match resp with
  | none => none
  | some players => some ((players.filter (fun p => 0 < p.2)).map Prod.fst)

/-- `num_retries` (line 158). -/
def num_retries : Nat := 1

/-- One renewal attempt (lines 172–180): evaluating the arguments of
`client.take_role(self.role_path, self.instance_name, ...)` reads
`self.instance_name` first, which raises `AttributeError` before any request
is issued; the would-be success path (update the expiration if newer) is
kept for fidelity to lines 175–176. -/
def Role.maintainAttempt (resp : StoreResp) (r : RoleState) :
    Except PyExn RoleState × List StoreCall :=
  match r.instance_name? with
  | .error e => (.error e, [])
  | .ok inst =>
      match resp with
      | .ok e =>
          (.ok { r with
                 expiration_time_msecs :=
                   if e > r.expiration_time_msecs then e
                   else r.expiration_time_msecs },
           [.takeRole r.role_path inst])
      | .err => (.error .registryError, [.takeRole r.role_path inst])

/-- The retry loop of `_maintain_role` (lines 170–180), with the fuel
`retry_remaining`: while the flag is still set and retries remain, attempt a
renewal; an exception is swallowed (`time.sleep(1)`) and costs one retry. -/
def Role.maintainRetryLoop (resp : StoreResp) :
    Nat → RoleState → RoleState × List StoreCall
  | 0, r => (r, [])
  | n + 1, r =>
      if r.to_maintain_role then
        match Role.maintainAttempt resp r with
        | (.ok r', calls) => (r', calls)
        | (.error _, calls) =>
            let (r'', more) := Role.maintainRetryLoop resp n r
            (r'', calls ++ more)
      else (r, [])

/-- Interleaved events on one `Role` handle.  `taskStep` is one pass of a
maintenance thread: the unlocked `while self._to_maintain_role` check
(line 162) followed, if the flag held, by the lock-guarded retry loop; if
the flag was clear the thread returns.  `resp` is the store's would-be
answer to a renewal request. -/
inductive Ev where
  | takeOk (expMsecs : Int) : Ev
  | takeErr : Ev
  | release (storeFails : Bool) : Ev
  | taskStep (tid : Nat) (resp : StoreResp) : Ev
  deriving DecidableEq, Repr

/-- One event of the interleaving; returns the new state and the store
requests issued during the event. -/
def stepEv (s : RoleSys) : Ev → RoleSys × List StoreCall
  | .takeOk e =>
      let (s', _, calls) := Role.take (.ok e) s
      (s', calls)
  | .takeErr =>
      let (s', _, calls) := Role.take .err s
      (s', calls)
  | .release storeFails =>
      let (s', _, calls) := Role.release storeFails s
      (s', calls)
  | .taskStep tid resp =>
      if tid ∈ s.liveTasks then
        if s.role.to_maintain_role then
          let (r', calls) := Role.maintainRetryLoop resp num_retries s.role
          ({ s with role := r' }, calls)
        else
          ({ s with liveTasks := s.liveTasks.filter (fun t => t ≠ tid) }, [])
      else (s, [])

/-- Run a list of events, accumulating the issued store requests. -/
def runEvents : RoleSys → List Ev → RoleSys × List StoreCall
  | s, [] => (s, [])
  | s, e :: evs =>
      let (s1, calls) := stepEv s e
      let (s2, more) := runEvents s1 evs
      (s2, calls ++ more)

/-! ## Helper lemmas about the maintenance loop -/

/-- Every renewal attempt fails before issuing a request: the argument list
of the `take_role` call reads `self.instance_name`, which no `Role` instance
has. -/
theorem Role.maintainAttempt_eq (resp : StoreResp) (r : RoleState) :
    Role.maintainAttempt resp r = (.error .attributeError, []) := by
  simp [Role.maintainAttempt, RoleState.instance_name?]

/-- The retry loop therefore leaves the role state untouched and issues no
store request, for any amount of retry fuel. -/
theorem Role.maintainRetryLoop_eq (resp : StoreResp) (n : Nat) (r : RoleState) :
    Role.maintainRetryLoop resp n r = (r, []) := by
  induction n with
  | zero => rfl
  | succ n ih =>
      by_cases hf : r.to_maintain_role <;>
        simp [Role.maintainRetryLoop, Role.maintainAttempt_eq, hf, ih]

/-- A maintenance-thread pass never changes the `Role` attributes. -/
theorem stepEv_taskStep_role (s : RoleSys) (tid : Nat) (resp : StoreResp) :
    (stepEv s (.taskStep tid resp)).1.role = s.role := by
  by_cases hl : tid ∈ s.liveTasks <;>
    by_cases hf : s.role.to_maintain_role <;>
      simp [stepEv, Role.maintainRetryLoop_eq, hl, hf]

/-- A maintenance-thread pass never issues a store request. -/
theorem stepEv_taskStep_calls (s : RoleSys) (tid : Nat) (resp : StoreResp) :
    (stepEv s (.taskStep tid resp)).2 = [] := by
  by_cases hl : tid ∈ s.liveTasks <;>
    by_cases hf : s.role.to_maintain_role <;>
      simp [stepEv, Role.maintainRetryLoop_eq, hl, hf]

/-- Runs consisting only of maintenance passes keep the `Role` attributes and
issue no store requests. -/
theorem runEvents_taskSteps (steps : List (Nat × StoreResp)) :
    ∀ s : RoleSys,
      (runEvents s (steps.map fun p => Ev.taskStep p.1 p.2)).1.role = s.role ∧
      (runEvents s (steps.map fun p => Ev.taskStep p.1 p.2)).2 = [] := by
  induction steps with
  | nil => intro s; exact ⟨rfl, rfl⟩
  | cons p rest ih =>
      intro s
      have hrole := stepEv_taskStep_role s p.1 p.2
      have hcalls := stepEv_taskStep_calls s p.1 p.2
      have := ih (stepEv s (.taskStep p.1 p.2)).1
      simp only [List.map_cons, runEvents]
      constructor
      · rw [this.1, hrole]
      · rw [hcalls, this.2, List.nil_append]

/-! ## Claim theorems for the `Role` handle -/

/-- **C1.**  `Role.release()` always clears the maintain flag first, but when
the store call fails it does not return `False`: the `except` handler runs
`num_attempts -= 1` on a local that was never assigned, so `release()`
raises `UnboundLocalError` to its caller — contradicting its own docstring
(`"Returns: bool ... False otherwise"`).  On store success it returns
`True`. -/
theorem c1_release_clears_flag_but_raises_on_store_failure (s : RoleSys) :
    (Role.release true s).1.role.to_maintain_role = false ∧
    (Role.release false s).1.role.to_maintain_role = false ∧
    (Role.release true s).2.1 = .error .unboundLocalError ∧
    (Role.release false s).2.1 = .ok true := by
  simp [Role.release]

/-- **C2.**  Every renewal attempt of the background maintenance task raises
internally (`self.instance_name` is never defined, so evaluating the
arguments of `client.take_role` raises `AttributeError`), the retry handler
swallows it, and hence no run of maintenance passes ever changes
`expiration_time_msecs`; the timestamp is advanced exactly by the explicit
`take()` calls (to the response value when it is newer). -/
theorem c2_renewal_never_advances_expiration (resp : StoreResp)
    (r : RoleState) (s : RoleSys) (steps : List (Nat × StoreResp)) (e : Int) :
    Role.maintainAttempt resp r = (.error .attributeError, []) ∧
    (runEvents s (steps.map fun p => Ev.taskStep p.1 p.2)).1.role.expiration_time_msecs
        = s.role.expiration_time_msecs ∧
    (stepEv s (.takeOk e)).1.role.expiration_time_msecs
        = (if e > s.role.expiration_time_msecs then e
           else s.role.expiration_time_msecs) := by
  refine ⟨Role.maintainAttempt_eq resp r, ?_, ?_⟩
  · rw [(runEvents_taskSteps steps s).1]
  · cases hmt : s.role.maintenance_thread <;>
      simp [stepEv, Role.take, hmt]

/-- **C8.**  Once `release()` has completed, maintenance passes never issue a
`take_role` request (in fact they issue no store request at all): the flag
check and the call share the handle's lock, and — independently — the
argument evaluation of the renewal call raises before any request is made.
An in-flight renewal attempt is serialized before `release()` by the lock,
i.e. it is a `taskStep` ordered before the `release` event. -/
theorem c8_no_acquire_after_release (s : RoleSys) (storeFails : Bool)
    (steps : List (Nat × StoreResp)) :
    (runEvents (Role.release storeFails s).1
        (steps.map fun p => Ev.taskStep p.1 p.2)).2 = [] :=
  (runEvents_taskSteps steps (Role.release storeFails s).1).2

/-! ## C3: how many maintenance threads are alive -/

/-- Structural invariant of a `Role` handle: when the maintain flag is clear
the thread handle is `None` (only `release` clears the flag, and it also
nulls the handle), and a non-`None` thread handle always refers to a live
thread. -/
def roleInv (s : RoleSys) : Prop :=
  (s.role.to_maintain_role = false → s.role.maintenance_thread = none) ∧
  (∀ t, s.role.maintenance_thread = some t → t ∈ s.liveTasks)

theorem roleInv_init (name role_path : String) (max_players playtime_secs : Nat) :
    roleInv (initRole name role_path max_players playtime_secs) := by
  constructor
  · intro _; rfl
  · intro t ht; cases ht

theorem roleInv_step (s : RoleSys) (e : Ev) (h : roleInv s) :
    roleInv (stepEv s e).1 := by
  cases e with
  | takeOk exp =>
      cases hmt : s.role.maintenance_thread with
      | some t =>
          refine ⟨fun hf => by simp [stepEv, Role.take, hmt] at hf, ?_⟩
          intro t' ht'
          have ht2 : some t = some t' := by
            simpa [stepEv, Role.take, hmt] using ht'
          have hmem : t' ∈ s.liveTasks := Option.some.inj ht2 ▸ h.2 t hmt
          simpa [stepEv, Role.take, hmt] using hmem
      | none =>
          refine ⟨fun hf => by simp [stepEv, Role.take, hmt] at hf, ?_⟩
          intro t' ht'
          simp [stepEv, Role.take, hmt] at ht'
          simp [stepEv, Role.take, hmt, ← ht']
  | takeErr => exact h
  | release storeFails =>
      constructor
      · intro _; cases storeFails <;> rfl
      · intro t ht; cases storeFails <;> simp [stepEv, Role.release] at ht
  | taskStep tid resp =>
      by_cases hl : tid ∈ s.liveTasks
      · by_cases hf : s.role.to_maintain_role
        · constructor
          · intro hflag
            have : (stepEv s (.taskStep tid resp)).1.role = s.role :=
              stepEv_taskStep_role s tid resp
            rw [this] at hflag ⊢
            exact h.1 hflag
          · intro t ht
            rw [stepEv_taskStep_role s tid resp] at ht
            simpa [stepEv, Role.maintainRetryLoop_eq, hl, hf] using h.2 t ht
        · constructor
          · intro _
            rw [stepEv_taskStep_role s tid resp]
            exact h.1 (by simpa using hf)
          · intro t ht
            rw [stepEv_taskStep_role s tid resp] at ht
            have := h.1 (by simpa using hf)
            rw [this] at ht; cases ht
      · simpa [stepEv, hl] using h

theorem roleInv_run (evs : List Ev) :
    ∀ s : RoleSys, roleInv s → roleInv (runEvents s evs).1 := by
  induction evs with
  | nil => intro s h; exact h
  | cons e evs ih =>
      intro s h
      simpa [runEvents] using ih _ (roleInv_step s e h)

/-- A successful `take` leaves at least one live maintenance thread. -/
theorem take_leaves_live_thread (s : RoleSys) (e : Int) (h : roleInv s) :
    (stepEv s (.takeOk e)).1.liveTasks ≠ [] := by
  cases hmt : s.role.maintenance_thread with
  | some t =>
      have ht : t ∈ (stepEv s (.takeOk e)).1.liveTasks := by
        simpa [stepEv, Role.take, hmt] using h.2 t hmt
      exact fun hnil => by simp [hnil] at ht
  | none =>
      have ht : s.nextTid ∈ (stepEv s (.takeOk e)).1.liveTasks := by
        simp [stepEv, Role.take, hmt]
      exact fun hnil => by simp [hnil] at ht

/-- The `Role` object of a machine of the demonstration
(`manager_workers.Machine.__init__`, max one player, ten-second playtime). -/
def demoManagerRole : RoleSys :=
  initRole "5001" "/manager_workers/demo/manager" 1 10

/-- **C3, counterexample.**  After `take(); release(); take()` — with the
first maintenance thread not scheduled in between — the handle does *not*
have exactly one live renewal thread: `release()` nulls the thread handle
without joining the thread, and the second `take()`, finding the handle
`None`, starts a second thread while the first is still asleep with the
maintain flag set again. -/
theorem c3_two_threads_after_take_release_take :
    ¬ ((runEvents demoManagerRole
        [.takeOk 5000, .release false, .takeOk 6000]).1.liveTasks.length = 1) := by
  decide

/-- **C3, amended.**  Each successful `take()` ensures *at least* one live
renewal thread — never zero — but not always exactly one: the sequence
`take(); release(); take()` leaves two live renewal threads when the first
thread does not run between the release and the second take, and one when
it does observe the cleared flag in between. -/
theorem c3_take_ensures_at_least_one_thread :
    (∀ (name role_path : String) (max_players playtime_secs : Nat)
        (evs : List Ev) (e : Int),
        (stepEv (runEvents (initRole name role_path max_players playtime_secs)
            evs).1 (.takeOk e)).1.liveTasks ≠ []) ∧
    (runEvents demoManagerRole
        [.takeOk 5000, .release false, .takeOk 6000]).1.liveTasks.length = 2 ∧
    (runEvents demoManagerRole
        [.takeOk 5000, .release false, .taskStep 0 .err,
         .takeOk 6000]).1.liveTasks.length = 1 := by
  refine ⟨?_, by decide, by decide⟩
  intro name role_path max_players playtime_secs evs e
  exact take_leaves_live_thread _ e
    (roleInv_run evs _ (roleInv_init name role_path max_players playtime_secs))

/-! ## `samples/manager_workers.py`

`ProblemState` (the Progress Record), the manager's result drain and
assignment algorithm, and the worker loop body.  Assignment ranges are the
half-open `[lower, higher)` pairs carried on the wire and used as `pending`
keys (see the header for the string-encoding convention); worker names are
the port strings the machines use as identities. -/

/-- `ASSIGNMENT_SIZE` (manager_workers.py line 55). -/
def ASSIGNMENT_SIZE : Int := 1000

/-- `RESULT_WAIT_TIME_SECS` (line 56). -/
def RESULT_WAIT_TIME_SECS : ℚ := 1

/-- The durable fields of `ProblemState.__init__` (lines 72–78); the saving
path and the client are store plumbing with no modelled state. -/
structure ProblemState where
  next : Int
  pending : List ((Int × Int) × ℚ)
  busy_workers : List (String × (Int × Int))
  finished : Int
  deriving DecidableEq, Repr

/-- A result datagram `f"{lower},{higher},{count},{worker}"` as parsed by
`Manager._recv_results` (line 155). -/
structure Report where
  lower : Int
  higher : Int
  count : Int
  worker : String
  deriving DecidableEq, Repr

/-- The assignment range a report refers to (`assignment = f"{lower},{higher}"`,
line 160). -/
def Report.range (m : Report) : Int × Int := (m.lower, m.higher)

/-- The body of `_recv_results` for one received message whose worker passed
the `assert` (lines 156–163): clear the worker's `busy_workers` entry; then,
only if the range is still pending, add the reported count to `finished` and
delete the range from `pending`. -/
def processReport (m : Report) (s : ProblemState) : ProblemState :=
  let s1 := { s with busy_workers := dictDel m.worker s.busy_workers }
  if dictMem m.range s1.pending then
    { s1 with
      finished := s1.finished + m.count
      pending := dictDel m.range s1.pending }
  else s1

/-- `Manager._recv_results` (lines 148–171) on the queue of datagrams
available without blocking.  Messages are consumed in order; a message whose
worker fails `assert worker in self._problem.busy_workers` raises
`AssertionError`, which the trailing `except Exception` handler swallows
after the message was already consumed — ending this drain call and leaving
the remaining messages queued.  An empty queue ends the drain via the
non-blocking socket's `socket.error` errno 35, swallowed by its handler.
Returns the new state and the messages still queued. -/
def recv_results : List Report → ProblemState → ProblemState × List Report
  | [], s => (s, [])
  | m :: rest, s =>
      if dictMem m.worker s.busy_workers then recv_results rest (processReport m s)
      else (s, rest)

/-- The scan loop of `Manager._get_assignment` (lines 180–183): the first
pending entry, in insertion order, whose last-sent timestamp is older than
the response-wait threshold. -/
def scanPending (now : ℚ) : List ((Int × Int) × ℚ) → Option (Int × Int)
  | [] => none
  | e :: rest =>
      if e.2 + RESULT_WAIT_TIME_SECS < now then some e.1 else scanPending now rest

/-- `Manager._get_assignment` (lines 173–184): a stalled pending range if
one exists, else the fresh range `[next, next + ASSIGNMENT_SIZE)`.  `now` is
the `time.time()` sample of this call. -/
def get_assignment (now : ℚ) (s : ProblemState) : Int × Int :=
  match scanPending now s.pending with
  | some a => a
  | none => (s.next, s.next + ASSIGNMENT_SIZE)

/-- `Manager._send_assignment` (lines 186–201): send the range to the
worker; if it reaches past `next`, assert it starts exactly at `next` and
advance `next`; record the send time under the range in `pending` and mark
the worker busy with that range.  `now` is the `time.time()` sample recorded
in `pending`. -/
def send_assignment (now : ℚ) (a : Int × Int) (w : String) (s : ProblemState) :
    Except PyExn ProblemState :=
  if a.2 > s.next then
    if a.1 = s.next then
      .ok { s with
            next := a.2
            pending := dictInsert a now s.pending
            busy_workers := dictInsert w a s.busy_workers }
    else .error .assertionError
  else
    .ok { s with
          pending := dictInsert a now s.pending
          busy_workers := dictInsert w a s.busy_workers }

/-- The `for worker in free_workers` pass of `Manager.do_work`
(lines 221–224): each idle worker gets one assignment, chosen by
`_get_assignment` and recorded by `_send_assignment`.  Each iteration is
paired with its `time.time()` sample, used by both calls.  Returns the new
state and the `(worker, assignment)` pairs sent. -/
def assignPass : List (String × ℚ) → ProblemState →
    Except PyExn (ProblemState × List (String × (Int × Int)))
  | [], s => .ok (s, [])
  | (w, t) :: ws, s =>
      let a := get_assignment t s
      match send_assignment t a w s with
      | .error exn => .error exn
      | .ok s1 =>
          match assignPass ws s1 with
          | .error exn => .error exn
          | .ok (s2, sent) => .ok (s2, (w, a) :: sent)

/-- One iteration of the `Manager.do_work` loop (lines 218–230): drain
results, compute `free_workers = active_players() - busy_workers.keys()`,
assign work to each free worker.  When `active_players()` returned `None`
(store failure) the set difference raises `TypeError`, which nothing in
`do_work` catches.  `time_of` supplies the `time.time()` sample of each
worker's assignment iteration; persisting the state (`save`, line 230) is a
store call with no effect on the in-memory fields. -/
def managerIteration (msgs : List Report) (players : Option (List String))
    (time_of : String → ℚ) (s : ProblemState) :
    Except PyExn (ProblemState × List (String × (Int × Int))) :=
  let s1 := (recv_results msgs s).1
  match players with
  | none => .error .typeError
  | some ps =>
      let free_workers := ps.filter (fun w => ¬ dictMem w s1.busy_workers)
      assignPass (free_workers.map fun w => (w, time_of w)) s1

/-- What a worker receives within its bounded-timeout `recv`
(lines 259–261): either `socket.timeout` or an assignment datagram. -/
inductive RecvOutcome where
  | timeout : RecvOutcome
  | msg (lower higher : Int) : RecvOutcome
  deriving DecidableEq, Repr

/-- The body of one `Worker.do_work` iteration (lines 259–279): on timeout
the `except socket.timeout` handler swallows and the loop re-checks; on an
assignment, count the range by iteration (`len(range(lower, higher))`), then
read the manager role's active players — if that read failed (`None`),
`len(players)` raises `TypeError`, which the `try` does *not* catch — and
send a report only when exactly one manager is observed. -/
def workerIteration (name : String) (rc : RecvOutcome)
    (players : Option (List String)) : Except PyExn (Option Report) :=
  match rc with
  | .timeout => .ok none
  | .msg lower higher =>
      let count : Int := if lower < higher then higher - lower else 0
      match players with
      | none => .error .typeError
      | some ps =>
          if ps.length = 1 then
            .ok (some { lower := lower, higher := higher, count := count, worker := name })
          else .ok none

/-! ## Helper lemmas about the result drain -/

/-- `processReport` always clears the reporting worker's `busy_workers`
entry (the branch on `pending` touches only `finished` and `pending`). -/
theorem processReport_busy_workers (m : Report) (s : ProblemState) :
    (processReport m s).busy_workers = dictDel m.worker s.busy_workers := by
  by_cases hp : dictMem m.range s.pending
  · simp [processReport, hp]
  · simp [processReport, hp]

/-- Once a range is absent from `pending`, a drain of reports that all refer
to that range leaves `finished` unchanged and never re-adds the range. -/
theorem recv_results_absent_range (r : Int × Int) :
    ∀ (q : List Report) (s : ProblemState),
      (∀ m ∈ q, m.range = r) → dictLookup r s.pending = none →
      (recv_results q s).1.finished = s.finished ∧
      dictLookup r (recv_results q s).1.pending = none := by
  intro q
  induction q with
  | nil => intro s _ hr; exact ⟨rfl, hr⟩
  | cons m rest ih =>
      intro s hq hr
      have hm : m.range = r := hq m (List.mem_cons_self m rest)
      by_cases hw : dictMem m.worker s.busy_workers
      · have hpr : processReport m s =
            { s with busy_workers := dictDel m.worker s.busy_workers } := by
          simp [processReport, dictMem, hm, hr]
        have hstep : recv_results (m :: rest) s =
            recv_results rest (processReport m s) := by
          simp [recv_results, hw]
        rw [hstep, hpr]
        exact ih _ (fun m' hm' => hq m' (List.mem_cons_of_mem m hm')) hr
      · have hstep : recv_results (m :: rest) s = (s, rest) := by
          simp [recv_results, hw]
        rw [hstep]
        exact ⟨rfl, hr⟩

/-! ## Claim theorems for the result drain -/

/-- **C4, counterexample.**  A report from a worker not tracked in
`busy_workers` does *not* let the drain continue with the remaining
available messages: the failed `assert` raises `AssertionError`, the
handler outside the `while` swallows it, and the drain call returns with
the second message — from a tracked worker — still queued, its
`busy_workers` entry uncleared. -/
theorem c4_untracked_report_ends_drain :
    recv_results
        [{ lower := 0, higher := 1000, count := 1000, worker := "6000" },
         { lower := 1000, higher := 2000, count := 1000, worker := "5002" }]
        { next := 2000
          pending := [((0, 1000), 0), ((1000, 2000), 0)]
          busy_workers := [("5002", (1000, 2000))]
          finished := 0 }
      = ({ next := 2000
           pending := [((0, 1000), 0), ((1000, 2000), 0)]
           busy_workers := [("5002", (1000, 2000))]
           finished := 0 },
         [{ lower := 1000, higher := 2000, count := 1000, worker := "5002" }]) ∧
    dictMem "5002"
        [(("5002" : String), ((1000 : Int), (2000 : Int)))] = true := by
  constructor
  · rfl
  · rfl

/-- **C4, amended.**  For each drained message: a tracked reporting worker
has its `busy_workers` entry cleared and the drain moves on to the next
message; an untracked reporting worker is never fatal — the consumed
message leaves `pending`/`finished`/`busy_workers` untouched — but it ends
this drain call, leaving the remaining queued messages for the next drain
rather than processing them in the same call. -/
theorem c4_untracked_report_is_swallowed (s : ProblemState) (m : Report)
    (rest : List Report) :
    (dictMem m.worker s.busy_workers = false →
        recv_results (m :: rest) s = (s, rest)) ∧
    (dictMem m.worker s.busy_workers = true →
        recv_results (m :: rest) s = recv_results rest (processReport m s) ∧
        dictLookup m.worker (processReport m s).busy_workers = none) := by
  constructor
  · intro h
    simp [recv_results, h]
  · intro h
    refine ⟨by simp [recv_results, h], ?_⟩
    rw [processReport_busy_workers]
    exact dictLookup_dictDel_self m.worker s.busy_workers

/-- **C4, witness.**  A concrete anomalous drain: the head report's worker
is untracked, so the state is unchanged and the tail stays queued. -/
theorem c4_untracked_report_witness :
    recv_results
        [{ lower := 0, higher := 1000, count := 1000, worker := "7000" },
         { lower := 0, higher := 1000, count := 1000, worker := "5003" }]
        { next := 1000
          pending := [((0, 1000), 0)]
          busy_workers := [("5003", (0, 1000))]
          finished := 0 }
      = ({ next := 1000
           pending := [((0, 1000), 0)]
           busy_workers := [("5003", (0, 1000))]
           finished := 0 },
         [{ lower := 0, higher := 1000, count := 1000, worker := "5003" }]) :=
  (c4_untracked_report_is_swallowed _ _ _).1 (by rfl)

/-- **C5.**  Duplicate completion reports for one range are counted once:
the first processed report (range still pending, worker tracked) adds its
count to `finished` and removes the range from `pending`; every following
report for the same range — processed or drain-ending — leaves `finished`
unchanged and never re-adds the range. -/
theorem c5_duplicate_reports_recorded_once (s : ProblemState) (m : Report)
    (q : List Report)
    (hp : dictMem m.range s.pending = true)
    (hw : dictMem m.worker s.busy_workers = true)
    (hq : ∀ m' ∈ q, m'.range = m.range) :
    (recv_results (m :: q) s).1.finished = s.finished + m.count ∧
    dictLookup m.range (recv_results (m :: q) s).1.pending = none := by
  have hstep : recv_results (m :: q) s = recv_results q (processReport m s) := by
    simp [recv_results, hw]
  have hpr : processReport m s =
      { s with
        busy_workers := dictDel m.worker s.busy_workers
        finished := s.finished + m.count
        pending := dictDel m.range s.pending } := by
    simp [processReport, hp]
  have habsent :
      dictLookup m.range (dictDel m.range s.pending) = none :=
    dictLookup_dictDel_self m.range s.pending
  rw [hstep, hpr]
  exact recv_results_absent_range m.range q _ hq habsent

/-- **C5, witness.**  Two reports for the same range from two tracked
workers (a reassignment that both completed): `finished` grows by 1000
once, not twice, and the range is gone from `pending`. -/
theorem c5_duplicate_reports_witness :
    (recv_results
        [{ lower := 0, higher := 1000, count := 1000, worker := "5001" },
         { lower := 0, higher := 1000, count := 1000, worker := "5002" }]
        { next := 1000
          pending := [((0, 1000), 0)]
          busy_workers := [("5001", (0, 1000)), ("5002", (0, 1000))]
          finished := 0 }).1.finished = 0 + 1000 ∧
    dictLookup ((0 : Int), (1000 : Int))
        (recv_results
            [{ lower := 0, higher := 1000, count := 1000, worker := "5001" },
             { lower := 0, higher := 1000, count := 1000, worker := "5002" }]
            { next := 1000
              pending := [((0, 1000), 0)]
              busy_workers := [("5001", (0, 1000)), ("5002", (0, 1000))]
              finished := 0 }).1.pending = none :=
  c5_duplicate_reports_recorded_once _ _ _ (by rfl) (by rfl)
    (by intro m' hm'; simp at hm'; simp [hm', Report.range])

/-! ## Claim theorems for the assignment choice -/

/-- Modelled from the spec's words (§4.3 step 3): "scan pending in
(insertion) order and pick the first entry whose last-sent timestamp is
older than a response-wait threshold; if none qualifies, carve a new range
[next, next + chunk_size)". -/
def specAssignmentChoice (now : ℚ) (s : ProblemState) : Int × Int :=
  match s.pending.find? (fun e => decide (e.2 + RESULT_WAIT_TIME_SECS < now)) with
  | some e => e.1
  | none => (s.next, s.next + ASSIGNMENT_SIZE)

/-- The scan loop returns exactly the first qualifying entry. -/
theorem scanPending_eq_find (now : ℚ) (l : List ((Int × Int) × ℚ)) :
    scanPending now l =
      (l.find? (fun e => decide (e.2 + RESULT_WAIT_TIME_SECS < now))).map Prod.fst := by
  induction l with
  | nil => rfl
  | cons e rest ih =>
      by_cases h : e.2 + RESULT_WAIT_TIME_SECS < now
      · simp [scanPending, List.find?_cons, h]
      · simp [scanPending, List.find?_cons, h, ih]

/-- **C7.**  `_get_assignment` returns the first entry of `pending` in
insertion order whose last-sent timestamp is older than the response-wait
threshold, and only when no entry qualifies does it return
`[next, next + chunk_size)`. -/
theorem c7_get_assignment_prefers_first_stale (now : ℚ) (s : ProblemState) :
    get_assignment now s = specAssignmentChoice now s ∧
    ((∀ e ∈ s.pending, ¬ (e.2 + RESULT_WAIT_TIME_SECS < now)) →
        get_assignment now s = (s.next, s.next + ASSIGNMENT_SIZE)) := by
  constructor
  · unfold get_assignment specAssignmentChoice
    rw [scanPending_eq_find]
    cases s.pending.find? (fun e => decide (e.2 + RESULT_WAIT_TIME_SECS < now)) <;> simp
  · intro hall
    have hnone :
        s.pending.find? (fun e => decide (e.2 + RESULT_WAIT_TIME_SECS < now)) = none := by
      rw [List.find?_eq_none]
      intro x hx
      simpa using hall x hx
    unfold get_assignment
    rw [scanPending_eq_find, hnone]
    rfl

/-- **C7, witness.**  With one fresh pending entry (sent half a second ago,
threshold one second) nothing qualifies, so the fresh carve
`[1000, 2000)` is returned. -/
theorem c7_get_assignment_witness :
    get_assignment 5
        { next := 1000
          pending := [((0, 1000), 9 / 2)]
          busy_workers := []
          finished := 0 } = (1000, 2000) :=
  (c7_get_assignment_prefers_first_stale 5 _).2 (by
    intro e he
    simp at he
    simp [he, RESULT_WAIT_TIME_SECS]
    norm_num)

/-! ## Claim theorem for the unhandled `active_players` failure -/

/-- **C10.**  When the role read behind `active_players()` fails the method
returns `None`; the manager's `free_workers` set difference then raises
`TypeError` out of its iteration (nothing in `do_work` catches it), and the
worker's `len(players)` raises `TypeError` out of its iteration (its `try`
catches only `socket.timeout`). -/
theorem c10_none_players_raises_type_error (msgs : List Report)
    (time_of : String → ℚ) (s : ProblemState) (name : String)
    (lower higher : Int) :
    Role.active_players none = none ∧
    managerIteration msgs none time_of s = .error .typeError ∧
    workerIteration name (.msg lower higher) none = .error .typeError := by
  exact ⟨rfl, rfl, rfl⟩

/-! ## C6: one pass over the free workers never repeats a range -/

/-- Progress-record invariant: every pending range ends at or before the
`next` cursor (maintained by `_send_assignment`, which advances `next` past
every freshly carved range before recording it in `pending`). -/
def pendingBounded (s : ProblemState) : Prop :=
  ∀ e ∈ s.pending, e.1.2 ≤ s.next

/-- A range recorded in `pending` with a send timestamp from the current
pass (no older than the pass's first `time.time()` sample `t0`). -/
def freshIn (t0 : ℚ) (s : ProblemState) (a : Int × Int) : Prop :=
  ∃ ts, (a, ts) ∈ s.pending ∧ t0 ≤ ts

/-- If the scan returns a range, that range is in `pending` with a stale
timestamp. -/
theorem scanPending_some_mem (now : ℚ) :
    ∀ (l : List ((Int × Int) × ℚ)) (b : Int × Int),
      scanPending now l = some b →
      ∃ ts, ((b, ts) ∈ l ∧ ts + RESULT_WAIT_TIME_SECS < now) := by
  intro l
  induction l with
  | nil => intro b h; cases h
  | cons e rest ih =>
      intro b h
      by_cases hc : e.2 + RESULT_WAIT_TIME_SECS < now
      · have hb : e.1 = b := by simpa [scanPending, hc] using h
        exact ⟨e.2, by simp [← hb], hc⟩
      · obtain ⟨ts, hm, hst⟩ := ih b (by simpa [scanPending, hc] using h)
        exact ⟨ts, List.mem_cons_of_mem e hm, hst⟩

/-- The chosen assignment is never a range that was already sent in this
pass (it is fresh in `pending`, hence not stale, and it ends at or before
`next`, hence differs from the carve). -/
theorem get_assignment_ne_fresh (t0 now : ℚ) (s : ProblemState)
    (b : Int × Int) (hB : pendingBounded s)
    (hN : (dictKeys s.pending).Nodup) (hf : freshIn t0 s b)
    (hnow : now ≤ t0 + RESULT_WAIT_TIME_SECS) :
    get_assignment now s ≠ b := by
  obtain ⟨ts, hmem, ht0⟩ := hf
  unfold get_assignment
  cases hscan : scanPending now s.pending with
  | none =>
      intro hc
      have h2 : b.2 ≤ s.next := hB (b, ts) hmem
      rw [← hc] at h2
      simp [ASSIGNMENT_SIZE] at h2
  | some c =>
      intro hc
      subst hc
      obtain ⟨ts', hm', hst'⟩ := scanPending_some_mem now s.pending c hscan
      have hts : ts' = ts := dictKeys_nodup_value_eq hN hm' hmem
      rw [hts] at hst'
      have : now ≤ ts + RESULT_WAIT_TIME_SECS :=
        le_trans hnow (by linarith)
      linarith

/-- What a successful `_send_assignment` does to the state. -/
theorem send_assignment_ok_spec (now : ℚ) (a : Int × Int) (w : String)
    (s s' : ProblemState) (h : send_assignment now a w s = .ok s') :
    s'.pending = dictInsert a now s.pending ∧
    s.next ≤ s'.next ∧ a.2 ≤ s'.next := by
  unfold send_assignment at h
  by_cases h2 : a.2 > s.next
  · rw [if_pos h2] at h
    by_cases h1 : a.1 = s.next
    · rw [if_pos h1] at h
      cases h
      exact ⟨rfl, le_of_lt h2, le_refl _⟩
    · rw [if_neg h1] at h
      cases h
  · rw [if_neg h2] at h
    cases h
    exact ⟨rfl, le_refl _, le_of_not_lt h2⟩

/-- `_send_assignment` succeeds on the range `_get_assignment` chose: a
reassigned stalled range ends at or before `next` (so the assert guard is
skipped), and a fresh carve starts exactly at `next`. -/
theorem send_get_assignment_ok (now : ℚ) (w : String) (s : ProblemState)
    (hB : pendingBounded s) :
    ∃ s', send_assignment now (get_assignment now s) w s = .ok s' := by
  unfold get_assignment
  cases hscan : scanPending now s.pending with
  | none =>
      have h2 : (s.next, s.next + ASSIGNMENT_SIZE).2 > s.next := by
        simp [ASSIGNMENT_SIZE]
      refine ⟨{ s with
                next := (s.next, s.next + ASSIGNMENT_SIZE).2
                pending :=
                  dictInsert (s.next, s.next + ASSIGNMENT_SIZE) now s.pending
                busy_workers :=
                  dictInsert w (s.next, s.next + ASSIGNMENT_SIZE)
                    s.busy_workers }, ?_⟩
      unfold send_assignment
      rw [if_pos h2, if_pos rfl]
  | some c =>
      obtain ⟨ts, hm, _⟩ := scanPending_some_mem now s.pending c hscan
      have h2 : ¬ c.2 > s.next := not_lt_of_le (hB (c, ts) hm)
      refine ⟨{ s with
                pending := dictInsert c now s.pending
                busy_workers := dictInsert w c s.busy_workers }, ?_⟩
      unfold send_assignment
      rw [if_neg h2]

/-- The one-pass induction: under the pending invariant, distinct keys, and
all `time.time()` samples of the pass inside a window of length
`RESULT_WAIT_TIME_SECS` starting at `t0`, the pass succeeds, preserves both
invariants, keeps every already-fresh range fresh and unchosen, marks every
sent range fresh, and sends pairwise-distinct ranges. -/
theorem assignPass_spec (t0 : ℚ) :
    ∀ (ws : List (String × ℚ)) (s : ProblemState),
      pendingBounded s → (dictKeys s.pending).Nodup →
      (∀ e ∈ ws, t0 ≤ e.2 ∧ e.2 ≤ t0 + RESULT_WAIT_TIME_SECS) →
      ∃ s' sent, assignPass ws s = .ok (s', sent) ∧
        pendingBounded s' ∧ (dictKeys s'.pending).Nodup ∧
        (∀ a, freshIn t0 s a → freshIn t0 s' a ∧ a ∉ sent.map Prod.snd) ∧
        (∀ a ∈ sent.map Prod.snd, freshIn t0 s' a) ∧
        (sent.map Prod.snd).Nodup := by
  intro ws
  induction ws with
  | nil =>
      intro s hB hN _
      exact ⟨s, [], rfl, hB, hN, fun a hf => ⟨hf, by simp⟩, by simp, by simp⟩
  | cons e ws ih =>
      intro s hB hN hT
      obtain ⟨w, τ⟩ := e
      have hτ : t0 ≤ τ ∧ τ ≤ t0 + RESULT_WAIT_TIME_SECS :=
        hT (w, τ) (List.mem_cons_self _ _)
      obtain ⟨s1, hs1⟩ := send_get_assignment_ok τ w s hB
      obtain ⟨hpend1, hnext1, ha2⟩ :=
        send_assignment_ok_spec τ (get_assignment τ s) w s s1 hs1
      have hB1 : pendingBounded s1 := by
        intro x hx
        rw [hpend1] at hx
        rcases mem_of_mem_dictInsert s.pending hx with hx | hx
        · rw [hx]; exact ha2
        · exact le_trans (hB x hx) hnext1
      have hN1 : (dictKeys s1.pending).Nodup := by
        rw [hpend1]
        exact dictInsert_keys_nodup _ τ s.pending hN
      have hfresh1 : freshIn t0 s1 (get_assignment τ s) := by
        refine ⟨τ, ?_, hτ.1⟩
        rw [hpend1]
        exact mem_dictInsert_self _ τ s.pending
      have hpres1 : ∀ b, freshIn t0 s b → freshIn t0 s1 b := by
        intro b hb
        obtain ⟨ts, hm, ht0⟩ := hb
        by_cases hba : b = get_assignment τ s
        · exact hba ▸ hfresh1
        · exact ⟨ts, hpend1 ▸ mem_dictInsert_of_ne τ hba s.pending hm, ht0⟩
      obtain ⟨s2, sent, hpass, hB2, hN2, hpres2, hsent2, hnd2⟩ :=
        ih s1 hB1 hN1 (fun x hx => hT x (List.mem_cons_of_mem _ hx))
      refine ⟨s2, (w, get_assignment τ s) :: sent, ?_, hB2, hN2, ?_, ?_, ?_⟩
      · simp only [assignPass, hs1, hpass]
      · intro b hb
        obtain ⟨hb1, hbns⟩ := hpres2 b (hpres1 b hb)
        refine ⟨hb1, ?_⟩
        simp only [List.map_cons, List.mem_cons]
        rintro (hc | hc)
        · exact get_assignment_ne_fresh t0 τ s b hB hN hb hτ.2 hc.symm
        · exact hbns hc
      · intro b hb
        simp only [List.map_cons, List.mem_cons] at hb
        rcases hb with hb | hb
        · exact hb ▸ (hpres2 _ hfresh1).1
        · exact hsent2 b hb
      · simp only [List.map_cons, List.nodup_cons]
        exact ⟨(hpres2 _ hfresh1).2, hnd2⟩

/-- **C6.**  In one pass of the manager's work loop over the free workers
(all of whose `time.time()` samples lie within one response-wait window),
no two assignments sent are the same range: a range just sent is fresh in
`pending`, so the scan never re-picks it, and a carve lies strictly past
every pending range's upper end. -/
theorem c6_no_range_sent_to_two_workers (t0 : ℚ) (ws : List (String × ℚ))
    (s : ProblemState)
    (hB : ∀ e ∈ s.pending, e.1.2 ≤ s.next)
    (hN : (dictKeys s.pending).Nodup)
    (hT : ∀ e ∈ ws, t0 ≤ e.2 ∧ e.2 ≤ t0 + RESULT_WAIT_TIME_SECS) :
    ∃ s' sent, assignPass ws s = .ok (s', sent) ∧
      (sent.map Prod.snd).Nodup := by
  obtain ⟨s', sent, hpass, _, _, _, _, hnd⟩ := assignPass_spec t0 ws s hB hN hT
  exact ⟨s', sent, hpass, hnd⟩

/-- **C6, witness.**  A stalled range `[0,1000)` and two idle workers: the
first worker is sent the stalled range, the second a fresh carve — two
distinct ranges. -/
theorem c6_no_range_sent_to_two_workers_witness :
    ∃ s' sent, assignPass [("5001", 2), ("5002", 5 / 2)]
        { next := 1000
          pending := [((0, 1000), 0)]
          busy_workers := []
          finished := 0 } = .ok (s', sent) ∧
      (sent.map Prod.snd).Nodup :=
  c6_no_range_sent_to_two_workers 2 _ _
    (by decide) (by decide)
    (by
      intro e he
      simp at he
      rcases he with he | he <;> (rw [he]; constructor <;> norm_num [RESULT_WAIT_TIME_SECS]))

/-! ## C9: `ProblemState.save()` / `load()` round trip

`durable_json` (lines 79–88) serializes the four durable fields into one
JSON object via `json.dumps` per field; `save` writes that blob at
`_saving_path` and `load` reads it back, `json.loads` it and assigns the
four fields.  The byte-level JSON text encoding and the store's blob
write/read are external collaborators (spec §1, §6); a *successful*
`save()`-then-`load()` is modelled as the JSON value reaching `load`
unchanged.  Range-encoding strings appear both as the keys of the
`pending` object and as the values of the `busy_workers` object, and are
modelled as the pairs they encode, as everywhere in this file. -/

/-- A key of a serialized JSON object: a plain string, or the
`f"{lower},{higher}"` encoding of a range. -/
inductive JKey where
  | str : String → JKey
  | range : Int × Int → JKey
  deriving DecidableEq, Repr

/-- The JSON values `durable_json` produces: Python ints, floats
(`time.time()` stamps), range-encoding strings, and objects. -/
inductive JValue where
  | jint : Int → JValue
  | jnum : ℚ → JValue
  | jrange : Int × Int → JValue
  | jobj : List (JKey × JValue) → JValue

/-- `ProblemState.durable_json` (lines 79–88):
`{"next": ..., "pending": {...}, "busy_workers": {...}, "finished": ...}`. -/
def ProblemState.durable_json (s : ProblemState) : JValue :=
  .jobj
    [ (.str "next", .jint s.next),
      (.str "pending",
        .jobj (s.pending.map fun e => (JKey.range e.1, JValue.jnum e.2))),
      (.str "busy_workers",
        .jobj (s.busy_workers.map fun e => (JKey.str e.1, JValue.jrange e.2))),
      (.str "finished", .jint s.finished) ]

/-- Reading back the `pending` object (`self.pending = obj['pending']`,
line 121): each entry must be a range key with a numeric stamp. -/
def decodePending : List (JKey × JValue) → Option (List ((Int × Int) × ℚ))
  | [] => some []
  | (JKey.range a, JValue.jnum q) :: rest =>
      (decodePending rest).map (fun l => (a, q) :: l)
  | _ => none

/-- Reading back the `busy_workers` object (`self.busy_workers =
obj['busy_workers']`, line 122): each entry maps a worker name to a range
string. -/
def decodeBusy : List (JKey × JValue) → Option (List (String × (Int × Int)))
  | [] => some []
  | (JKey.str w, JValue.jrange a) :: rest =>
      (decodeBusy rest).map (fun l => (w, a) :: l)
  | _ => none

/-- `ProblemState.load` (lines 109–126) applied to the parsed JSON value of
a successful read: assign the four fields from the object's entries
(`obj['next']`, `obj['pending']`, `obj['busy_workers']`, `obj['finished']`);
`none` models the `KeyError`/shape failures that the method does not
catch. -/
def loadProblemState (j : JValue) : Option ProblemState :=
  match j with
  | .jobj fields =>
      match dictLookup (JKey.str "next") fields,
            dictLookup (JKey.str "pending") fields,
            dictLookup (JKey.str "busy_workers") fields,
            dictLookup (JKey.str "finished") fields with
      | some (.jint nx), some (.jobj pe), some (.jobj be), some (.jint fin) =>
          match decodePending pe, decodeBusy be with
          | some p, some b =>
              some { next := nx, pending := p, busy_workers := b, finished := fin }
          | _, _ => none
      | _, _, _, _ => none
  | _ => none

theorem decodePending_map (l : List ((Int × Int) × ℚ)) :
    decodePending (l.map fun e => (JKey.range e.1, JValue.jnum e.2)) = some l := by
  induction l with
  | nil => rfl
  | cons e rest ih => simp [decodePending, ih]

theorem decodeBusy_map (l : List (String × (Int × Int))) :
    decodeBusy (l.map fun e => (JKey.str e.1, JValue.jrange e.2)) = some l := by
  induction l with
  | nil => rfl
  | cons e rest ih => simp [decodeBusy, ih]

/-- **C9.**  A successful `save()` followed by `load()` on a fresh
`ProblemState` at the same path reproduces an identical
`next`/`pending`/`busy_workers`/`finished` snapshot, for every state. -/
theorem c9_save_load_round_trip (s : ProblemState) :
    loadProblemState s.durable_json = some s := by
  simp [loadProblemState, ProblemState.durable_json, dictLookup,
    decodePending_map, decodeBusy_map]
